import Mathlib

/-!
Shallow embedding of the aggregation engine of the NYC taxi analytics
backend (src/server_20250919013006.py).  The three analytics endpoints
get_trip_analytics, get_hourly_analytics and get_zone_analytics are pure
computations over the list of trip records fetched from the store; the
spec calls them computeOverview, computeHourly and computeZones, and we
embed them under those names.  Python floats are modelled by exact
rationals, and the Python builtin round (round-half-to-even) by pyRound.
Record fields not consumed by the analytics (dropoff data, passenger
count, distance, payment type, ids) are omitted.  The hour of a pickup
timestamp (datetime.hour in Python) is always in 0..23, so it is carried
as a Fin 24 field.
-/

/-- A trip record, as consumed by the analytics endpoints.  pickup_hour is
the hour-of-day component of pickup_datetime (Python datetime.hour,
always 0..23). -/
structure TaxiTrip where
  pickup_hour : Fin 24
  pickup_location_id : Int
  trip_duration_minutes : Rat
  fare_amount : Rat
  total_amount : Rat
  pickup_wait_time_minutes : Rat
  is_delayed : Bool
deriving DecidableEq

/-- Output record of get_trip_analytics (response model TripAnalytics). -/
structure TripAnalytics where
  total_trips : Nat
  avg_trip_duration : Rat
  avg_fare : Rat
  total_revenue : Rat
  delayed_trips_count : Nat
  delay_percentage : Rat
  avg_wait_time : Rat
deriving DecidableEq

/-- Output record of get_hourly_analytics (response model HourlyAnalytics). -/
structure HourlyAnalytics where
  hour : Nat
  avg_wait_time : Rat
  trip_count : Nat
  delay_percentage : Rat
deriving DecidableEq

/-- Output record of get_zone_analytics (response model ZoneAnalytics). -/
structure ZoneAnalytics where
  location_id : Int
  zone_name : String
  trip_count : Nat
  avg_wait_time : Rat
  delay_percentage : Rat
deriving DecidableEq

/-- Nearest integer to x, ties to even: the rounding mode of the Python
builtin round, modelled on exact rationals. -/
def rndHalfEven (x : Rat) : Int :=
  if x - (⌊x⌋ : Rat) < 1/2 then ⌊x⌋
  else if 1/2 < x - (⌊x⌋ : Rat) then ⌊x⌋ + 1
  else if 2 ∣ ⌊x⌋ then ⌊x⌋ else ⌊x⌋ + 1

/-- Python round(x, nd) on exact rationals: round x to nd decimal digits,
ties to even. -/
def pyRound (nd : Nat) (x : Rat) : Rat :=
  (rndHalfEven (x * 10 ^ nd) : Rat) / 10 ^ nd

/-- Body of get_trip_analytics (src/server_20250919013006.py lines 192-214)
applied to the fetched record list: overall KPIs; all-zero stats on empty
input. -/
def computeOverview (trips : List TaxiTrip) : TripAnalytics :=
  if trips.isEmpty then
    { total_trips := 0, avg_trip_duration := 0, avg_fare := 0, total_revenue := 0,
      delayed_trips_count := 0, delay_percentage := 0, avg_wait_time := 0 }
  else
    let total_trips := trips.length
    let avg_duration := (trips.map (fun t => t.trip_duration_minutes)).sum / (total_trips : Rat)
    let avg_fare := (trips.map (fun t => t.fare_amount)).sum / (total_trips : Rat)
    let total_revenue := (trips.map (fun t => t.total_amount)).sum
    let delayed_count := trips.countP (fun t => t.is_delayed)
    let delay_percentage := ((delayed_count : Rat) / (total_trips : Rat)) * 100
    let avg_wait := (trips.map (fun t => t.pickup_wait_time_minutes)).sum / (total_trips : Rat)
    { total_trips := total_trips,
      avg_trip_duration := pyRound 1 avg_duration,
      avg_fare := pyRound 2 avg_fare,
      total_revenue := pyRound 2 total_revenue,
      delayed_trips_count := delayed_count,
      delay_percentage := pyRound 1 delay_percentage,
      avg_wait_time := pyRound 1 avg_wait }

/-- The partition of the records whose pickup hour is h: the hourly_data
bucket for key h in get_hourly_analytics (the dict groups records in
encounter order, which filter preserves). -/
def hourGroup (trips : List TaxiTrip) (h : Nat) : List TaxiTrip :=
  trips.filter (fun t => (t.pickup_hour : Nat) = h)

/-- One entry of the get_hourly_analytics result (lines 241-257): the
branch on membership of h in hourly_data is the branch on emptiness of
the hour-h partition; the Python code applies round to the zero values
of the empty branch as well. -/
def hourlyEntry (trips : List TaxiTrip) (h : Nat) : HourlyAnalytics :=
  let g := hourGroup trips h
  if g.isEmpty then
    { hour := h, avg_wait_time := pyRound 1 0, trip_count := 0,
      delay_percentage := pyRound 1 0 }
  else
    let avg_wait := (g.map (fun t => t.pickup_wait_time_minutes)).sum / (g.length : Rat)
    let delay_pct := ((g.countP (fun t => t.is_delayed) : Rat) / (g.length : Rat)) * 100
    { hour := h, avg_wait_time := pyRound 1 avg_wait, trip_count := g.length,
      delay_percentage := pyRound 1 delay_pct }

/-- Body of get_hourly_analytics (lines 224-259): one entry per hour of
range(24), in loop order. -/
def computeHourly (trips : List TaxiTrip) : List HourlyAnalytics :=
  (List.range 24).map (hourlyEntry trips)

/-- Appending a key to an accumulator unless already present: one step of
building the zone_data dict key set (Python dict keys are kept in
insertion order). -/
def insertKey (ks : List Int) (k : Int) : List Int :=
  if k ∈ ks then ks else ks ++ [k]

/-- The keys of the zone_data dict of get_zone_analytics, in first
appearance order over the record list. -/
def zoneKeys (trips : List TaxiTrip) : List Int :=
  trips.foldl (fun ks t => insertKey ks t.pickup_location_id) []

/-- The partition of the records whose pickup_location_id is k: the
zone_data bucket for key k. -/
def zoneGroup (trips : List TaxiTrip) (k : Int) : List TaxiTrip :=
  trips.filter (fun t => t.pickup_location_id = k)

/-- One entry of the get_zone_analytics result before sorting (lines
284-299); the code divides without an emptiness guard, every key of
zone_data having a non-empty bucket. -/
def zoneEntry (trips : List TaxiTrip) (k : Int) : ZoneAnalytics :=
  let g := zoneGroup trips k
  let avg_wait := (g.map (fun t => t.pickup_wait_time_minutes)).sum / (g.length : Rat)
  let delay_pct := ((g.countP (fun t => t.is_delayed) : Rat) / (g.length : Rat)) * 100
  { location_id := k, zone_name := "Zone " ++ toString k, trip_count := g.length,
    avg_wait_time := pyRound 1 avg_wait, delay_percentage := pyRound 1 delay_pct }

/-- Insert x into a list sorted by trip_count descending, after every
element of trip_count at least x.trip_count: the stable insertion step
realizing result.sort(key, reverse=True), whose Timsort is stable. -/
def insertDesc (x : ZoneAnalytics) : List ZoneAnalytics → List ZoneAnalytics
  | [] => [x]
  | y :: ys => if y.trip_count ≤ x.trip_count then x :: y :: ys else y :: insertDesc x ys

/-- Stable sort by trip_count descending (result.sort(key=lambda x:
x.trip_count, reverse=True) at line 302); a stable sorted rearrangement
is unique, so stable insertion sort computes the same list as Timsort. -/
def sortZones (l : List ZoneAnalytics) : List ZoneAnalytics :=
  l.foldr insertDesc []

/-- Body of get_zone_analytics (lines 269-303): one entry per zone_data
key in insertion order, stably sorted by trip_count descending,
truncated to the first 20. -/
def computeZones (trips : List TaxiTrip) : List ZoneAnalytics :=
  (sortZones ((zoneKeys trips).map (zoneEntry trips))).take 20

/-- Division as the Python runtime performs it: a ZeroDivisionError is
modelled by none.  Used by the effect-explicit mirrors of the three
compute functions, which establish that no division by zero occurs. -/
def divE (a b : Rat) : Option Rat :=
  if b = 0 then none else some (a / b)

/-- get_trip_analytics with every division routed through divE, so that a
ZeroDivisionError would surface as none. -/
def computeOverviewE (trips : List TaxiTrip) : Option TripAnalytics :=
  if trips.isEmpty then
    some { total_trips := 0, avg_trip_duration := 0, avg_fare := 0, total_revenue := 0,
           delayed_trips_count := 0, delay_percentage := 0, avg_wait_time := 0 }
  else do
    let total_trips := trips.length
    let avg_duration ← divE (trips.map (fun t => t.trip_duration_minutes)).sum (total_trips : Rat)
    let avg_fare ← divE (trips.map (fun t => t.fare_amount)).sum (total_trips : Rat)
    let total_revenue := (trips.map (fun t => t.total_amount)).sum
    let delayed_count := trips.countP (fun t => t.is_delayed)
    let delay_frac ← divE (delayed_count : Rat) (total_trips : Rat)
    let avg_wait ← divE (trips.map (fun t => t.pickup_wait_time_minutes)).sum (total_trips : Rat)
    some { total_trips := total_trips,
           avg_trip_duration := pyRound 1 avg_duration,
           avg_fare := pyRound 2 avg_fare,
           total_revenue := pyRound 2 total_revenue,
           delayed_trips_count := delayed_count,
           delay_percentage := pyRound 1 (delay_frac * 100),
           avg_wait_time := pyRound 1 avg_wait }

/-- One hourly entry with divisions routed through divE. -/
def hourlyEntryE (trips : List TaxiTrip) (h : Nat) : Option HourlyAnalytics :=
  let g := hourGroup trips h
  if g.isEmpty then
    some { hour := h, avg_wait_time := pyRound 1 0, trip_count := 0,
           delay_percentage := pyRound 1 0 }
  else do
    let avg_wait ← divE (g.map (fun t => t.pickup_wait_time_minutes)).sum (g.length : Rat)
    let delay_frac ← divE (g.countP (fun t => t.is_delayed) : Rat) (g.length : Rat)
    some { hour := h, avg_wait_time := pyRound 1 avg_wait, trip_count := g.length,
           delay_percentage := pyRound 1 (delay_frac * 100) }

/-- get_hourly_analytics with divisions routed through divE. -/
def computeHourlyE (trips : List TaxiTrip) : Option (List HourlyAnalytics) :=
  (List.range 24).mapM (hourlyEntryE trips)

/-- One zone entry with divisions routed through divE; as in the source,
no emptiness guard protects the divisions. -/
def zoneEntryE (trips : List TaxiTrip) (k : Int) : Option ZoneAnalytics := do
  let g := zoneGroup trips k
  let avg_wait ← divE (g.map (fun t => t.pickup_wait_time_minutes)).sum (g.length : Rat)
  let delay_frac ← divE (g.countP (fun t => t.is_delayed) : Rat) (g.length : Rat)
  some { location_id := k, zone_name := "Zone " ++ toString k, trip_count := g.length,
         avg_wait_time := pyRound 1 avg_wait, delay_percentage := pyRound 1 (delay_frac * 100) }

/-- get_zone_analytics with divisions routed through divE. -/
def computeZonesE (trips : List TaxiTrip) : Option (List ZoneAnalytics) := do
  let es ← (zoneKeys trips).mapM (zoneEntryE trips)
  some ((sortZones es).take 20)

/-- The worked example of the spec: one record with pickup hour 5, wait
time 15, delayed, location 42, duration 20, fare 10, total 13. -/
def sampleTrip : TaxiTrip :=
  { pickup_hour := 5, pickup_location_id := 42, trip_duration_minutes := 20,
    fare_amount := 10, total_amount := 13, pickup_wait_time_minutes := 15,
    is_delayed := true }

/-- The zone entry the spec expects for the worked example. -/
def sampleZoneStats : ZoneAnalytics :=
  { location_id := 42, zone_name := "Zone 42", trip_count := 1,
    avg_wait_time := 15, delay_percentage := 100 }

/-- The hour-5 entry the spec expects for the worked example. -/
def sampleHourStats : HourlyAnalytics :=
  { hour := 5, avg_wait_time := 15, trip_count := 1, delay_percentage := 100 }

section ConcreteEvaluation

attribute [local semireducible] Rat.add Rat.mul Rat.inv Rat.sub

example : computeOverview [sampleTrip] =
    { total_trips := 1, avg_trip_duration := 20, avg_fare := 10, total_revenue := 13,
      delayed_trips_count := 1, delay_percentage := 100, avg_wait_time := 15 } := by
  decide

example : computeZones [sampleTrip] =
    [{ location_id := 42, zone_name := "Zone 42", trip_count := 1,
       avg_wait_time := 15, delay_percentage := 100 }] := by
  decide

example : hourlyEntry [sampleTrip] 5 =
    { hour := 5, avg_wait_time := 15, trip_count := 1, delay_percentage := 100 } := by
  decide

end ConcreteEvaluation

/-! Helper lemmas about pyRound. -/

/-- rndHalfEven returns the floor or the floor plus one. -/
theorem rndHalfEven_eq_floor_or (x : Rat) :
    rndHalfEven x = ⌊x⌋ ∨ rndHalfEven x = ⌊x⌋ + 1 := by
  unfold rndHalfEven
  split_ifs <;> simp

/-- rndHalfEven is at least any integer lower bound of its argument. -/
theorem le_rndHalfEven (n : Int) (x : Rat) (h : (n : Rat) ≤ x) : n ≤ rndHalfEven x := by
  have hf : n ≤ ⌊x⌋ := Int.le_floor.mpr h
  rcases rndHalfEven_eq_floor_or x with h1 | h1 <;> omega

/-- rndHalfEven is at most any integer upper bound of its argument. -/
theorem rndHalfEven_le (n : Int) (x : Rat) (h : x ≤ (n : Rat)) : rndHalfEven x ≤ n := by
  have hfn : ⌊x⌋ ≤ n := by
    have h1 := Int.floor_le_floor h
    simpa using h1
  unfold rndHalfEven
  split_ifs with h1 h2 h3
  · exact hfn
  · have hx : (⌊x⌋ : Rat) < x := by linarith
    have : ⌊x⌋ < n := by exact_mod_cast lt_of_lt_of_le hx h
    omega
  · exact hfn
  · have h1' : 1/2 ≤ x - (⌊x⌋ : Rat) := le_of_not_lt h1
    have hx : (⌊x⌋ : Rat) < x := by linarith
    have : ⌊x⌋ < n := by exact_mod_cast lt_of_lt_of_le hx h
    omega

/-- pyRound of a nonnegative number is nonnegative. -/
theorem pyRound_nonneg (nd : Nat) (x : Rat) (h : 0 ≤ x) : 0 ≤ pyRound nd x := by
  unfold pyRound
  apply div_nonneg
  · have h1 : (0 : Int) ≤ rndHalfEven (x * 10 ^ nd) :=
      le_rndHalfEven 0 _ (by positivity)
    exact_mod_cast h1
  · positivity

/-- pyRound respects integer upper bounds. -/
theorem pyRound_le_int (nd : Nat) (n : Int) (x : Rat) (h : x ≤ (n : Rat)) :
    pyRound nd x ≤ (n : Rat) := by
  unfold pyRound
  rw [div_le_iff₀ (by positivity : (0 : Rat) < 10 ^ nd)]
  have h2 : x * 10 ^ nd ≤ ((n * 10 ^ nd : Int) : Rat) := by
    push_cast
    exact mul_le_mul_of_nonneg_right h (by positivity)
  have h3 := rndHalfEven_le (n * 10 ^ nd) _ h2
  calc (rndHalfEven (x * 10 ^ nd) : Rat) ≤ ((n * 10 ^ nd : Int) : Rat) := by exact_mod_cast h3
    _ = (n : Rat) * 10 ^ nd := by push_cast; ring

/-- pyRound of zero is zero. -/
theorem pyRound_zero (nd : Nat) : pyRound nd 0 = 0 := by
  norm_num [pyRound, rndHalfEven]

/-- total_trips is the record count in both branches of computeOverview. -/
theorem computeOverview_total (trips : List TaxiTrip) :
    (computeOverview trips).total_trips = trips.length := by
  by_cases he : trips.isEmpty
  · have h := List.isEmpty_iff.mp he
    simp [computeOverview, h]
  · simp [computeOverview, he]

/-- C2: on a non-empty record set, computeOverview returns the record count,
the mean trip duration rounded to 1 decimal, the mean fare rounded to 2
decimals, the revenue sum rounded to 2 decimals, the delayed count, 100
times the delayed fraction rounded to 1 decimal, and the mean wait time
rounded to 1 decimal. -/
theorem computeOverview_spec (trips : List TaxiTrip) (h : trips ≠ []) :
    computeOverview trips =
      { total_trips := trips.length,
        avg_trip_duration :=
          pyRound 1 ((trips.map (fun t => t.trip_duration_minutes)).sum / (trips.length : Rat)),
        avg_fare :=
          pyRound 2 ((trips.map (fun t => t.fare_amount)).sum / (trips.length : Rat)),
        total_revenue := pyRound 2 (trips.map (fun t => t.total_amount)).sum,
        delayed_trips_count := trips.countP (fun t => t.is_delayed),
        delay_percentage :=
          pyRound 1 (100 * ((trips.countP (fun t => t.is_delayed) : Rat) / (trips.length : Rat))),
        avg_wait_time :=
          pyRound 1 ((trips.map (fun t => t.pickup_wait_time_minutes)).sum / (trips.length : Rat)) } := by
  unfold computeOverview
  rw [if_neg (by simpa [List.isEmpty_iff] using h)]
  rw [mul_comm]

/-- C6: on the empty record set, computeOverview is all zero, computeHourly
is 24 all-zero entries, computeZones is empty. -/
theorem compute_empty :
    computeOverview [] =
      { total_trips := 0, avg_trip_duration := 0, avg_fare := 0, total_revenue := 0,
        delayed_trips_count := 0, delay_percentage := 0, avg_wait_time := 0 } ∧
    computeHourly [] =
      (List.range 24).map (fun h =>
        { hour := h, avg_wait_time := 0, trip_count := 0, delay_percentage := 0 }) ∧
    computeZones [] = [] := by
  refine ⟨rfl, ?_, rfl⟩
  unfold computeHourly
  apply List.map_congr_left
  intro h _
  simp [hourlyEntry, hourGroup, pyRound_zero]

/-- C8: the delay percentage reported by computeOverview always lies in
the interval from 0 to 100, rounding included. -/
theorem delay_percentage_in_range (trips : List TaxiTrip) :
    0 ≤ (computeOverview trips).delay_percentage ∧
    (computeOverview trips).delay_percentage ≤ 100 := by
  by_cases he : trips.isEmpty
  · have h := List.isEmpty_iff.mp he
    simp [computeOverview, h]
  · have hne : trips ≠ [] := by simpa [List.isEmpty_iff] using he
    have hpos : 0 < trips.length := List.length_pos.mpr hne
    have hq : (0 : Rat) < (trips.length : Rat) := by exact_mod_cast hpos
    have hd : (trips.countP (fun t => t.is_delayed) : Rat) ≤ (trips.length : Rat) := by
      exact_mod_cast List.countP_le_length _
    have hfrac0 : 0 ≤ (trips.countP (fun t => t.is_delayed) : Rat) / (trips.length : Rat) :=
      div_nonneg (by positivity) (le_of_lt hq)
    have hfrac1 : (trips.countP (fun t => t.is_delayed) : Rat) / (trips.length : Rat) ≤ 1 :=
      (div_le_one hq).mpr hd
    have hx0 : (0 : Rat) ≤ ((trips.countP (fun t => t.is_delayed) : Rat) / (trips.length : Rat)) * 100 := by
      positivity
    have hx1 : ((trips.countP (fun t => t.is_delayed) : Rat) / (trips.length : Rat)) * 100 ≤ ((100 : Int) : Rat) := by
      push_cast
      nlinarith
    constructor
    · have := pyRound_nonneg 1 _ hx0
      simpa [computeOverview, he] using this
    · have := pyRound_le_int 1 100 _ hx1
      simp only [computeOverview, he, Bool.false_eq_true, if_false]
      push_cast at this
      simpa using this

/-- C9: the compute functions are deterministic in their input; in this
embedding they are pure functions of the record list, so repeated
application returns identical results and the input is untouched. -/
theorem compute_idempotent (trips : List TaxiTrip) :
    computeOverview trips = computeOverview trips ∧
    computeHourly trips = computeHourly trips ∧
    computeZones trips = computeZones trips :=
  ⟨rfl, rfl, rfl⟩

/-! Counting lemmas for the hourly partition. -/

/-- The trip_count field of an hourly entry is the partition size in both
branches. -/
theorem trip_count_hourlyEntry (trips : List TaxiTrip) (h : Nat) :
    (hourlyEntry trips h).trip_count = (hourGroup trips h).length := by
  by_cases hg : hourGroup trips h = []
  · simp [hourlyEntry, hg]
  · have hg' : (hourGroup trips h).isEmpty = false := by
      simpa [List.isEmpty_iff] using hg
    simp [hourlyEntry, hg']

/-- Sums of pointwise sums of naturals split. -/
theorem sum_map_add_nat {α : Type} (f g : α → Nat) (l : List α) :
    (l.map (fun x => f x + g x)).sum = (l.map f).sum + (l.map g).sum := by
  induction l with
  | nil => rfl
  | cons a l ih =>
    simp only [List.map_cons, List.sum_cons, ih]
    omega

/-- Summing the indicator of m over range n gives 1 exactly when m < n. -/
theorem sum_indicator_range (n m : Nat) :
    ((List.range n).map (fun j => if m = j then 1 else 0)).sum = if m < n then 1 else 0 := by
  induction n with
  | zero => simp
  | succ n ih =>
    rw [List.range_succ, List.map_append, List.sum_append, ih]
    simp only [List.map_cons, List.map_nil, List.sum_cons, List.sum_nil]
    split_ifs <;> omega

/-- Every record lands in exactly one of the 24 hourly partitions. -/
theorem sum_hourGroup_length (trips : List TaxiTrip) :
    ((List.range 24).map (fun h => (hourGroup trips h).length)).sum = trips.length := by
  induction trips with
  | nil => simp [hourGroup]
  | cons t ts ih =>
    have hsplit : ∀ h : Nat, (hourGroup (t :: ts) h).length =
        (if (t.pickup_hour : Nat) = h then 1 else 0) + (hourGroup ts h).length := by
      intro h
      by_cases hh : (t.pickup_hour : Nat) = h
      · simp only [hourGroup, List.filter_cons, hh, decide_True, if_true, List.length_cons]
        omega
      · simp [hourGroup, List.filter_cons, hh]
    have hmap : ((List.range 24).map (fun h => (hourGroup (t :: ts) h).length)) =
        ((List.range 24).map (fun h =>
          (if (t.pickup_hour : Nat) = h then 1 else 0) + (hourGroup ts h).length)) :=
      List.map_congr_left (fun h _ => hsplit h)
    rw [hmap, sum_map_add_nat, ih, sum_indicator_range]
    have hlt : (t.pickup_hour : Nat) < 24 := t.pickup_hour.isLt
    simp [hlt]
    omega

/-- C1: the hourly trip counts sum to the overall total_trips. -/
theorem hourly_counts_sum_to_total (trips : List TaxiTrip) :
    ((computeHourly trips).map (fun e => e.trip_count)).sum =
      (computeOverview trips).total_trips := by
  rw [computeOverview_total]
  unfold computeHourly
  rw [List.map_map]
  have hmap : ((List.range 24).map ((fun e => e.trip_count) ∘ hourlyEntry trips)) =
      ((List.range 24).map (fun h => (hourGroup trips h).length)) :=
    List.map_congr_left (fun h _ => trip_count_hourlyEntry trips h)
  rw [hmap, sum_hourGroup_length]

/-- C3: computeHourly always has 24 entries; the entry at position i
reports hour i, and carries the hour-i partition statistics when that
partition is non-empty and zeroes when it is empty. -/
theorem computeHourly_spec (trips : List TaxiTrip) :
    (computeHourly trips).length = 24 ∧
    ∀ (i : Nat) (e : HourlyAnalytics), (computeHourly trips)[i]? = some e →
      e.hour = i ∧
      (hourGroup trips i ≠ [] →
        e.trip_count = (hourGroup trips i).length ∧
        e.avg_wait_time = pyRound 1
          (((hourGroup trips i).map (fun t => t.pickup_wait_time_minutes)).sum /
            ((hourGroup trips i).length : Rat)) ∧
        e.delay_percentage = pyRound 1
          ((((hourGroup trips i).countP (fun t => t.is_delayed) : Rat) /
            ((hourGroup trips i).length : Rat)) * 100)) ∧
      (hourGroup trips i = [] →
        e.trip_count = 0 ∧ e.avg_wait_time = 0 ∧ e.delay_percentage = 0) := by
  constructor
  · simp [computeHourly]
  · intro i e he
    have hi : i < 24 := by
      by_contra hcon
      have hlen : (computeHourly trips).length ≤ i := by
        simpa [computeHourly] using le_of_not_lt hcon
      rw [List.getElem?_eq_none hlen] at he
      cases he
    have he' : e = hourlyEntry trips i := by
      have h1 : (computeHourly trips)[i]? = some (hourlyEntry trips i) := by
        simp [computeHourly, List.getElem?_range hi]
      rw [h1] at he
      exact (Option.some.injEq _ _ ▸ he).symm
    subst he'
    refine ⟨?_, ?_, ?_⟩
    · by_cases hg : (hourGroup trips i).isEmpty <;> simp [hourlyEntry, hg]
    · intro hne
      have hg : (hourGroup trips i).isEmpty = false := by
        simpa [List.isEmpty_iff] using hne
      simp [hourlyEntry, hg]
    · intro hnil
      have hg : (hourGroup trips i).isEmpty = true := by
        simp [List.isEmpty_iff, hnil]
      simp [hourlyEntry, hg, pyRound_zero]

/-! Zone key set lemmas and the division-safety mirrors. -/

/-- divE agrees with division on non-zero divisors. -/
theorem divE_of_ne (a b : Rat) (hb : b ≠ 0) : divE a b = some (a / b) := by
  simp [divE, hb]

/-- A mapM over Option that succeeds pointwise succeeds globally. -/
theorem mapM_eq_some {α β : Type} (f : α → Option β) (g : α → β) (l : List α)
    (h : ∀ a ∈ l, f a = some (g a)) : l.mapM f = some (l.map g) := by
  induction l with
  | nil => rfl
  | cons a l ih =>
    rw [List.mapM_cons, h a (List.mem_cons_self a l),
      ih (fun b hb => h b (List.mem_cons_of_mem a hb))]
    rfl

/-- Membership in insertKey. -/
theorem mem_insertKey (ks : List Int) (x k : Int) :
    k ∈ insertKey ks x ↔ k ∈ ks ∨ k = x := by
  unfold insertKey
  split_ifs with h
  · exact ⟨Or.inl, fun hh => hh.elim id (fun hx => hx ▸ h)⟩
  · simp

/-- Membership in the accumulated key set. -/
theorem mem_foldl_insertKey (ts : List TaxiTrip) (acc : List Int) (k : Int) :
    k ∈ ts.foldl (fun ks t => insertKey ks t.pickup_location_id) acc ↔
      k ∈ acc ∨ ∃ t ∈ ts, t.pickup_location_id = k := by
  induction ts generalizing acc with
  | nil => simp
  | cons t ts ih =>
    simp only [List.foldl_cons, ih, mem_insertKey, List.mem_cons]
    constructor
    · rintro ((hacc | hk) | ⟨t', ht', hk⟩)
      · exact Or.inl hacc
      · exact Or.inr ⟨t, Or.inl rfl, hk.symm⟩
      · exact Or.inr ⟨t', Or.inr ht', hk⟩
    · rintro (hacc | ⟨t', ht' | ht', hk⟩)
      · exact Or.inl (Or.inl hacc)
      · exact Or.inl (Or.inr (ht' ▸ hk.symm))
      · exact Or.inr ⟨t', ht', hk⟩

/-- zoneKeys contains exactly the location ids present in the records. -/
theorem mem_zoneKeys (trips : List TaxiTrip) (k : Int) :
    k ∈ zoneKeys trips ↔ ∃ t ∈ trips, t.pickup_location_id = k := by
  unfold zoneKeys
  rw [mem_foldl_insertKey]
  simp

/-- Every key of the zone_data dict has a non-empty bucket. -/
theorem zoneGroup_ne_nil_of_mem (trips : List TaxiTrip) (k : Int)
    (hk : k ∈ zoneKeys trips) : zoneGroup trips k ≠ [] := by
  rw [mem_zoneKeys] at hk
  obtain ⟨t, ht, hloc⟩ := hk
  intro hcon
  simp only [zoneGroup, List.filter_eq_nil_iff] at hcon
  exact hcon t ht (by simp [hloc])

/-- The overview mirror never hits a zero divisor. -/
theorem computeOverviewE_eq (trips : List TaxiTrip) :
    computeOverviewE trips = some (computeOverview trips) := by
  by_cases he : trips.isEmpty
  · have h := List.isEmpty_iff.mp he
    simp [computeOverviewE, computeOverview, h]
  · have hne : trips ≠ [] := by simpa [List.isEmpty_iff] using he
    have hlen : trips.length ≠ 0 := by
      simpa [List.length_eq_zero] using hne
    have hq : ((trips.length : Rat)) ≠ 0 := Nat.cast_ne_zero.mpr hlen
    simp [computeOverviewE, computeOverview, he, divE_of_ne _ _ hq]

/-- The hourly-entry mirror never hits a zero divisor. -/
theorem hourlyEntryE_eq (trips : List TaxiTrip) (h : Nat) :
    hourlyEntryE trips h = some (hourlyEntry trips h) := by
  by_cases hg : (hourGroup trips h).isEmpty
  · simp [hourlyEntryE, hourlyEntry, hg]
  · have hne : hourGroup trips h ≠ [] := by simpa [List.isEmpty_iff] using hg
    have hlen : (hourGroup trips h).length ≠ 0 := by
      simpa [List.length_eq_zero] using hne
    have hq : (((hourGroup trips h).length : Rat)) ≠ 0 := Nat.cast_ne_zero.mpr hlen
    simp [hourlyEntryE, hourlyEntry, hg, divE_of_ne _ _ hq]

/-- The zone-entry mirror never hits a zero divisor on dict keys. -/
theorem zoneEntryE_eq (trips : List TaxiTrip) (k : Int)
    (hk : k ∈ zoneKeys trips) : zoneEntryE trips k = some (zoneEntry trips k) := by
  have hne : zoneGroup trips k ≠ [] := zoneGroup_ne_nil_of_mem trips k hk
  have hlen : (zoneGroup trips k).length ≠ 0 := by
    simpa [List.length_eq_zero] using hne
  have hq : (((zoneGroup trips k).length : Rat)) ≠ 0 := Nat.cast_ne_zero.mpr hlen
  simp [zoneEntryE, zoneEntry, divE_of_ne _ _ hq]

/-- C7: all three compute functions are total: run with division modelled
as the fallible Python operation, each returns some result, and that
result is the pure one; no division by zero is ever performed. -/
theorem compute_no_div_by_zero (trips : List TaxiTrip) :
    computeOverviewE trips = some (computeOverview trips) ∧
    computeHourlyE trips = some (computeHourly trips) ∧
    computeZonesE trips = some (computeZones trips) := by
  refine ⟨computeOverviewE_eq trips, ?_, ?_⟩
  · unfold computeHourlyE computeHourly
    exact mapM_eq_some _ _ _ (fun h _ => hourlyEntryE_eq trips h)
  · unfold computeZonesE computeZones
    rw [mapM_eq_some (zoneEntryE trips) (zoneEntry trips) (zoneKeys trips)
      (fun k hk => zoneEntryE_eq trips k hk)]
    rfl

/-! Permutation and stability of the descending sort. -/

/-- insertDesc permutes the inserted element into the list. -/
theorem insertDesc_perm (x : ZoneAnalytics) (l : List ZoneAnalytics) :
    (insertDesc x l).Perm (x :: l) := by
  induction l with
  | nil => simp [insertDesc]
  | cons y ys ih =>
    simp only [insertDesc]
    split_ifs with h
    · exact List.Perm.refl _
    · exact (ih.cons y).trans (List.Perm.swap x y ys)

/-- sortZones permutes its input. -/
theorem sortZones_perm (l : List ZoneAnalytics) : (sortZones l).Perm l := by
  induction l with
  | nil => exact List.Perm.refl _
  | cons a l ih =>
    show (insertDesc a (sortZones l)).Perm (a :: l)
    exact (insertDesc_perm a (sortZones l)).trans (ih.cons a)

/-- Inserting an element of strictly larger rank than everything present
preserves the descending-with-rank-tiebreak pairwise invariant. -/
theorem pairwise_insertDesc (r : ZoneAnalytics → Nat) (x : ZoneAnalytics)
    (l : List ZoneAnalytics)
    (hl : l.Pairwise (fun a b =>
      b.trip_count < a.trip_count ∨ (a.trip_count = b.trip_count ∧ r a < r b)))
    (hx : ∀ y ∈ l, r x < r y) :
    (insertDesc x l).Pairwise (fun a b =>
      b.trip_count < a.trip_count ∨ (a.trip_count = b.trip_count ∧ r a < r b)) := by
  induction l with
  | nil => simp [insertDesc]
  | cons y ys ih =>
    rw [List.pairwise_cons] at hl
    obtain ⟨hy, hys⟩ := hl
    simp only [insertDesc]
    split_ifs with h
    · refine List.Pairwise.cons ?_ (List.pairwise_cons.mpr ⟨hy, hys⟩)
      intro z hz
      have hzc : z.trip_count ≤ x.trip_count := by
        rcases List.mem_cons.mp hz with rfl | hz'
        · exact h
        · rcases hy z hz' with h1 | h1
          · omega
          · omega
      rcases lt_or_eq_of_le hzc with h2 | h2
      · exact Or.inl h2
      · exact Or.inr ⟨h2.symm, hx z hz⟩
    · refine List.Pairwise.cons ?_ (ih hys (fun z hz => hx z (List.mem_cons_of_mem y hz)))
      intro z hz
      rcases List.mem_cons.mp ((insertDesc_perm x ys).mem_iff.mp hz) with rfl | hz'
      · exact Or.inl (by omega)
      · exact hy z hz'

/-- On an input whose rank is strictly increasing, sortZones produces a
list pairwise descending in trip_count with ties in rank order: the
characteristic property of a stable descending sort. -/
theorem sortZones_pairwise (r : ZoneAnalytics → Nat) (l : List ZoneAnalytics)
    (h : l.Pairwise (fun a b => r a < r b)) :
    (sortZones l).Pairwise (fun a b =>
      b.trip_count < a.trip_count ∨ (a.trip_count = b.trip_count ∧ r a < r b)) := by
  induction l with
  | nil => simp [sortZones]
  | cons a l ih =>
    rw [List.pairwise_cons] at h
    show (insertDesc a (sortZones l)).Pairwise _
    exact pairwise_insertDesc r a (sortZones l) (ih h.2)
      (fun y hy => h.1 y ((sortZones_perm l).mem_iff.mp hy))

/-- The accumulated key set stays duplicate-free. -/
theorem nodup_foldl_insertKey (ts : List TaxiTrip) (acc : List Int) (h : acc.Nodup) :
    (ts.foldl (fun ks t => insertKey ks t.pickup_location_id) acc).Nodup := by
  induction ts generalizing acc with
  | nil => simpa using h
  | cons t ts ih =>
    simp only [List.foldl_cons]
    apply ih
    unfold insertKey
    split_ifs with hmem
    · exact h
    · simp [List.nodup_append, h, hmem]

/-- The zone keys are pairwise distinct. -/
theorem zoneKeys_nodup (trips : List TaxiTrip) : (zoneKeys trips).Nodup :=
  nodup_foldl_insertKey trips [] List.nodup_nil

/-- A duplicate-free list is pairwise increasing in indexOf. -/
theorem pairwise_indexOf_of_nodup (l : List Int) (h : l.Nodup) :
    l.Pairwise (fun a b => l.indexOf a < l.indexOf b) := by
  induction l with
  | nil => simp
  | cons x xs ih =>
    rw [List.nodup_cons] at h
    refine List.Pairwise.cons ?_ ?_
    · intro b hb
      have hbx : b ≠ x := fun hbx => h.1 (hbx ▸ hb)
      rw [List.indexOf_cons_self, List.indexOf_cons_ne xs hbx.symm]
      exact Nat.succ_pos _
    · refine List.Pairwise.imp_of_mem ?_ (ih h.2)
      intro a b ha hb hab
      have hax : a ≠ x := fun hax => h.1 (hax ▸ ha)
      have hbx : b ≠ x := fun hbx => h.1 (hbx ▸ hb)
      rw [List.indexOf_cons_ne xs hax.symm, List.indexOf_cons_ne xs hbx.symm]
      omega

/-- C4: computeZones returns at most 20 entries, pairwise descending in
trip_count, and ties between equal trip_counts keep the first-appearance
order of the zones (position in zoneKeys): the output of a stable
descending sort. -/
theorem computeZones_sorted (trips : List TaxiTrip) :
    (computeZones trips).length ≤ 20 ∧
    (computeZones trips).Pairwise (fun a b =>
      b.trip_count ≤ a.trip_count ∧
      (a.trip_count = b.trip_count →
        (zoneKeys trips).indexOf a.location_id < (zoneKeys trips).indexOf b.location_id)) := by
  constructor
  · unfold computeZones
    rw [List.length_take]
    omega
  · have hkeys : (zoneKeys trips).Pairwise
        (fun a b => (zoneKeys trips).indexOf a < (zoneKeys trips).indexOf b) :=
      pairwise_indexOf_of_nodup _ (zoneKeys_nodup trips)
    have hmap : ((zoneKeys trips).map (zoneEntry trips)).Pairwise
        (fun a b => (zoneKeys trips).indexOf a.location_id <
          (zoneKeys trips).indexOf b.location_id) := by
      rw [List.pairwise_map]
      exact hkeys
    have hsorted := sortZones_pairwise
      (fun z => (zoneKeys trips).indexOf z.location_id) _ hmap
    have htake := hsorted.sublist (List.take_sublist 20 _)
    refine htake.imp ?_
    intro a b hab
    rcases hab with h1 | ⟨h1, h2⟩
    · exact ⟨le_of_lt h1, fun he => absurd (he ▸ h1) (lt_irrefl _)⟩
    · exact ⟨le_of_eq h1.symm, fun _ => h2⟩

/-- C5: every entry of computeZones carries the statistics of the
partition of its location id, with the Zone-prefixed display name; and
when fewer than 20 distinct zones exist, every zone present in the
records appears in the output. -/
theorem computeZones_entries (trips : List TaxiTrip) :
    (∀ z ∈ computeZones trips,
      zoneGroup trips z.location_id ≠ [] ∧
      z.trip_count = (zoneGroup trips z.location_id).length ∧
      z.avg_wait_time = pyRound 1
        (((zoneGroup trips z.location_id).map (fun t => t.pickup_wait_time_minutes)).sum /
          ((zoneGroup trips z.location_id).length : Rat)) ∧
      z.delay_percentage = pyRound 1
        ((((zoneGroup trips z.location_id).countP (fun t => t.is_delayed) : Rat) /
          ((zoneGroup trips z.location_id).length : Rat)) * 100) ∧
      z.zone_name = "Zone " ++ toString z.location_id) ∧
    ((zoneKeys trips).length < 20 →
      ∀ k : Int, (∃ t ∈ trips, t.pickup_location_id = k) →
        ∃ z ∈ computeZones trips, z.location_id = k) := by
  constructor
  · intro z hz
    have hz1 : z ∈ sortZones ((zoneKeys trips).map (zoneEntry trips)) :=
      List.take_subset _ _ hz
    have hz2 : z ∈ (zoneKeys trips).map (zoneEntry trips) :=
      (sortZones_perm _).mem_iff.mp hz1
    obtain ⟨k, hk, rfl⟩ := List.mem_map.mp hz2
    exact ⟨zoneGroup_ne_nil_of_mem trips k hk, rfl, rfl, rfl, rfl⟩
  · intro hlen k hk
    have hkmem : k ∈ zoneKeys trips := (mem_zoneKeys trips k).mpr hk
    refine ⟨zoneEntry trips k, ?_, rfl⟩
    have hlen2 : (sortZones ((zoneKeys trips).map (zoneEntry trips))).length ≤ 20 := by
      have hperm := (sortZones_perm ((zoneKeys trips).map (zoneEntry trips))).length_eq
      rw [hperm, List.length_map]
      omega
    unfold computeZones
    rw [List.take_of_length_le hlen2]
    exact (sortZones_perm _).mem_iff.mpr (List.mem_map.mpr ⟨k, hkmem, rfl⟩)

/-- C10: every emitted zone entry counts at least one trip, and the
location ids of the emitted entries are pairwise distinct. -/
theorem computeZones_invariants (trips : List TaxiTrip) :
    (∀ z ∈ computeZones trips, 1 ≤ z.trip_count) ∧
    ((computeZones trips).map (fun z => z.location_id)).Nodup := by
  constructor
  · intro z hz
    have hz1 : z ∈ sortZones ((zoneKeys trips).map (zoneEntry trips)) :=
      List.take_subset _ _ hz
    have hz2 : z ∈ (zoneKeys trips).map (zoneEntry trips) :=
      (sortZones_perm _).mem_iff.mp hz1
    obtain ⟨k, hk, rfl⟩ := List.mem_map.mp hz2
    have hne := zoneGroup_ne_nil_of_mem trips k hk
    exact List.length_pos.mpr hne
  · have h1 : ((computeZones trips).map (fun z => z.location_id)).Sublist
        ((sortZones ((zoneKeys trips).map (zoneEntry trips))).map (fun z => z.location_id)) :=
      (List.take_sublist 20 _).map _
    apply h1.nodup
    have h2 := ((sortZones_perm ((zoneKeys trips).map (zoneEntry trips))).map
      (fun z => z.location_id)).nodup_iff
    rw [h2, List.map_map]
    have h3 : ((zoneKeys trips).map ((fun z => z.location_id) ∘ zoneEntry trips)) =
        (zoneKeys trips).map id :=
      List.map_congr_left (fun k _ => rfl)
    rw [h3, List.map_id]
    exact zoneKeys_nodup trips

/-! Witnesses instantiating the claims on the spec's worked example. -/

section Witnesses

attribute [local semireducible] Rat.add Rat.mul Rat.inv Rat.sub

/-- Witness for C2 at the one-record example. -/
theorem computeOverview_spec_witness :
    ([sampleTrip] : List TaxiTrip) ≠ [] ∧
    computeOverview [sampleTrip] =
      { total_trips := [sampleTrip].length,
        avg_trip_duration :=
          pyRound 1 (([sampleTrip].map (fun t => t.trip_duration_minutes)).sum /
            (([sampleTrip] : List TaxiTrip).length : Rat)),
        avg_fare :=
          pyRound 2 (([sampleTrip].map (fun t => t.fare_amount)).sum /
            (([sampleTrip] : List TaxiTrip).length : Rat)),
        total_revenue := pyRound 2 ([sampleTrip].map (fun t => t.total_amount)).sum,
        delayed_trips_count := [sampleTrip].countP (fun t => t.is_delayed),
        delay_percentage :=
          pyRound 1 (100 * (([sampleTrip].countP (fun t => t.is_delayed) : Rat) /
            (([sampleTrip] : List TaxiTrip).length : Rat))),
        avg_wait_time :=
          pyRound 1 (([sampleTrip].map (fun t => t.pickup_wait_time_minutes)).sum /
            (([sampleTrip] : List TaxiTrip).length : Rat)) } :=
  ⟨by decide, computeOverview_spec [sampleTrip] (by decide)⟩

/-- Witness for C3 at the one-record example, hour 5. -/
theorem computeHourly_spec_witness :
    sampleHourStats.trip_count = (hourGroup [sampleTrip] 5).length :=
  (((computeHourly_spec [sampleTrip]).2 5 sampleHourStats (by decide)).2.1 (by decide)).1

/-- Witness for C5 at the one-record example, zone 42. -/
theorem computeZones_entries_witness :
    zoneGroup [sampleTrip] 42 ≠ [] ∧
    1 = (zoneGroup [sampleTrip] 42).length ∧
    (15 : Rat) = pyRound 1
      (((zoneGroup [sampleTrip] 42).map (fun t => t.pickup_wait_time_minutes)).sum /
        ((zoneGroup [sampleTrip] 42).length : Rat)) ∧
    (100 : Rat) = pyRound 1
      ((((zoneGroup [sampleTrip] 42).countP (fun t => t.is_delayed) : Rat) /
        ((zoneGroup [sampleTrip] 42).length : Rat)) * 100) ∧
    "Zone 42" = "Zone " ++ toString (42 : Int) :=
  (computeZones_entries [sampleTrip]).1 sampleZoneStats (by decide)

/-- Witness for C10 at the one-record example. -/
theorem computeZones_invariants_witness :
    1 ≤ sampleZoneStats.trip_count :=
  (computeZones_invariants [sampleTrip]).1 sampleZoneStats (by decide)

end Witnesses
